import Mathlib

/-!
Shallow embedding of the natural-language decoding pipeline of this
repository: GloVe embedding loading, transcript token cleaning, temporal
resampling of word embeddings to scan time, the leave-one-subject-out
cross-validated linear decoder with its rank-based scoring, and the
word-scrambling baseline.  Machine floats are modelled by exact rationals;
the external library calls (ordinary least-squares fitting, cosine
similarity, z-scoring and the Glover HRF kernel values) are threaded as
opaque function/data parameters, while every piece of data plumbing done
by the repository's own code is defined explicitly below.
-/

/-- A numeric matrix, stored as its list of rows (a numpy 2-d array). -/
abbrev Mat := List (List ℚ)

/-- Number of rows of a matrix (numpy `shape[0]`). -/
def nrows (A : Mat) : ℕ := A.length

/-- Number of columns of a matrix, read off the first row (numpy `shape[1]`). -/
def ncols (A : Mat) : ℕ := (A.headD []).length

/-- A row of `c` zeros. -/
def zerosRow (c : ℕ) : List ℚ := List.replicate c 0

/-- `np.zeros((r, c))`. -/
def zeros (r c : ℕ) : Mat := List.replicate r (zerosRow c)

/-- numpy transpose `.T`, read off index-wise: column `j` of `A` becomes
row `j` of the transpose. -/
def transposeM (A : Mat) : Mat :=
  (List.range (ncols A)).map (fun j => A.map (fun r => r.getD j 0))

/-- `np.min` of a one-dimensional array (callers guarantee nonemptiness,
as numpy raises on an empty array). -/
def npMin (l : List ℚ) : ℚ := l.foldl min (l.headD 0)

/-- `np.max` of a one-dimensional array. -/
def npMax (l : List ℚ) : ℚ := l.foldl max (l.headD 0)

/-- The number of samples produced by `np.arange(a, b, 1)`:
`max 0 ⌈b - a⌉`. -/
def arangeLen (a b : ℚ) : ℕ := (⌈b - a⌉).toNat

/-- `np.arange(a, b, 1)`: the samples `a, a+1, ...` strictly below `b`. -/
def arange (a b : ℚ) : List ℚ :=
  (List.range (arangeLen a b)).map (fun (k : ℕ) => a + (k : ℚ))

/-- `np.convolve(x, w)` in its default "full" mode: entry `n` is
`∑ k, x[k] * w[n-k]`, with length `|x| + |w| - 1`. -/
def npConvolve (x w : List ℚ) : List ℚ :=
  (List.range (x.length + w.length - 1)).map (fun n =>
    ((List.range (n + 1)).map (fun k => x.getD k 0 * w.getD (n - k) 0)).sum)

/-! ## Transcript token cleaning (`clean_text`) -/

/-- `clean_text`'s character class: Latin letters, the space and the
apostrophe — codepoint 39 — (the regex in the source deletes every other
character). -/
def keepChar (c : Char) : Bool :=
  ('A' ≤ c && c ≤ 'Z') || ('a' ≤ c && c ≤ 'z') || c == ' ' || c.toNat == 39

/-- `re.sub(r"[^A-Za-z ']+", '', ·)`: delete every character outside the
kept class (each maximal run of them is replaced by the empty string). -/
def reSubRemove : List Char → List Char
  | [] => []
  | c :: cs => if keepChar c then c :: reSubRemove cs else reSubRemove cs

/-- Python `str.lower` on the ASCII range (the only characters relevant
here, since the deletion step runs first); identical to `Char.toLower`. -/
def pyLower (c : Char) : Char := c.toLower

/-- `clean_text(text)`: `re.sub(r"[^A-Za-z ']+", '', text).lower()`. -/
def clean_text (s : String) : String :=
  String.mk ((reSubRemove s.data).map pyLower)

/-! ## GloVe embedding loading (`get_glove_model`)

The URL branch of the source splits the fetched page text on newlines,
splits each line on single spaces, takes the first field as the token and
converts every remaining field with Python `float` (which raises on a
non-numeric field), storing the result in a dict.  Python strings are
modelled as lists of characters so that the splitting is structurally
recursive. -/

/-- Split a character list at every occurrence of the separator, keeping
empty pieces — Python `str.split(sep)` with an explicit separator. -/
def splitOnChar (sep : Char) : List Char → List (List Char)
  | [] => [[]]
  | c :: cs =>
    let rest := splitOnChar sep cs
    if c == sep then [] :: rest
    else (c :: rest.headD []) :: rest.tail

/-- Decimal digit test. -/
def isDigitCh (c : Char) : Bool := '0' ≤ c && c ≤ '9'

/-- Value of a digit string. -/
def digitsToNat (cs : List Char) : ℕ :=
  cs.foldl (fun n c => 10 * n + (c.toNat - 48)) 0

/-- Parse an unsigned decimal mantissa `digits[.digits]` (at least one
digit overall) as an exact rational. -/
def parseMantissa (cs : List Char) : Option ℚ :=
  let intPart := cs.takeWhile isDigitCh
  let rest := cs.dropWhile isDigitCh
  match rest with
  | [] => if intPart.isEmpty then none else some (digitsToNat intPart)
  | '.' :: frac =>
    if frac.all isDigitCh && !(intPart.isEmpty && frac.isEmpty) then
      some ((digitsToNat intPart : ℚ) + (digitsToNat frac : ℚ) / 10 ^ frac.length)
    else none
  | _ => none

/-- Parse an optional sign followed by a mantissa. -/
def parseSignedMantissa (cs : List Char) : Option ℚ :=
  match cs with
  | '-' :: rest => (parseMantissa rest).map Neg.neg
  | '+' :: rest => parseMantissa rest
  | _ => parseMantissa cs

/-- Parse an optionally signed decimal exponent. -/
def parseExponent (cs : List Char) : Option ℤ :=
  match cs with
  | '-' :: rest =>
    if rest.all isDigitCh && !rest.isEmpty then some (-(digitsToNat rest : ℤ)) else none
  | '+' :: rest =>
    if rest.all isDigitCh && !rest.isEmpty then some (digitsToNat rest : ℤ) else none
  | _ => if cs.all isDigitCh && !cs.isEmpty then some (digitsToNat cs : ℤ) else none

/-- Python `float(s)` on finite decimal literals (`inf`/`nan` spellings,
which never occur in the embedding resource, are not modelled): an
optionally signed mantissa with an optional decimal exponent. -/
def pyFloat (cs : List Char) : Option ℚ :=
  let mant := cs.takeWhile (fun c => !(c == 'e' || c == 'E'))
  let rest := cs.dropWhile (fun c => !(c == 'e' || c == 'E'))
  match rest with
  | [] => parseSignedMantissa mant
  | _ :: ex => do
    let m ← parseSignedMantissa mant
    let k ← parseExponent ex
    pure (m * (10 : ℚ) ^ k)

/-- Python dict assignment `d[k] = v`: replace the value of an existing
key in place, or append a new binding. -/
def dictInsert (d : List (List Char × List ℚ)) (k : List Char) (v : List ℚ) :
    List (List Char × List ℚ) :=
  if d.any (fun p => p.1 == k) then
    d.map (fun p => if p.1 == k then (k, v) else p)
  else d ++ [(k, v)]

/-- Processing of one line of the embedding resource: split on spaces,
take the first field as the token and `float` every remaining field.  A
field `float` cannot parse raises, aborting the whole load. -/
def gloveStep (d : List (List Char × List ℚ)) (line : List Char) :
    Except String (List (List Char × List ℚ)) :=
  match ((splitOnChar ' ' line).drop 1).mapM pyFloat with
  | none => .error "could not convert string to float"
  | some vec => .ok (dictInsert d ((splitOnChar ' ' line).headD []) vec)

/-- `get_glove_model` (URL branch): split the fetched text on newlines and
process every line into the dict. -/
def get_glove_model (text : List Char) : Except String (List (List Char × List ℚ)) :=
  (splitOnChar '\n' text).foldlM gloveStep []

/-! ## Temporal resampling (`downsample_embeddings`)

The source interpolates the word-embedding rows linearly over onset time
(`scipy.interpolate.interp1d(..., axis=0)`, which first sorts the knots by
onset), samples at `np.arange(min onset, max onset, 1)`, replaces NaNs by
zero, pads with `np.zeros((5, n_feature))` in front and `np.zeros((2, 100))`
behind, and optionally convolves every column with the HRF kernel,
truncating to the column length.  `n_feature = 100` and `n_TR = 1310` are
the surrounding notebook constants. -/

def n_feature : ℕ := 100

def n_TR : ℕ := 1310

/-- A word-embedding table row: onset time paired with the embedding
vector (the `word` text column is irrelevant to the numerics). -/
abbrev WordRow := ℚ × List ℚ

/-- Ordering of word rows by onset, as `interp1d`'s internal sort. -/
def onsetLE (p q : WordRow) : Prop := p.1 ≤ q.1

instance : DecidableRel onsetLE := fun p q => by unfold onsetLE; infer_instance

/-- One linearly interpolated row between two knots. -/
def lerpRow (p q : WordRow) (t : ℚ) : List ℚ :=
  List.zipWith (fun y1 y2 => y1 + (t - p.1) * (y2 - y1) / (q.1 - p.1)) p.2 q.2

/-- Evaluate the piecewise-linear interpolant through the sorted knots at
time `t` (callers only evaluate inside the knot range). -/
def interpPairs : List WordRow → ℚ → List ℚ
  | [], _ => []
  | [p], _ => p.2
  | p :: q :: rest, t => if t ≤ q.1 then lerpRow p q t else interpPairs (q :: rest) t

/-- The `word_time` column of the word-embedding table. -/
def onsetsOf (we : List WordRow) : List ℚ := we.map (fun p => p.1)

/-- The linearly interpolated block: evaluate the interpolant through the
onset-sorted knots (`interp1d` sorts internally) at
`np.arange(np.min(word_time), np.max(word_time), 1)`.  Exact-rational
arithmetic produces no NaN, so `np.nan_to_num` is the identity here
(Lean's `q / 0 = 0` convention plays the part of the `nan=0` replacement
in the duplicate-onset corner). -/
def bodyOf (we : List WordRow) : Mat :=
  (arange (npMin (onsetsOf we)) (npMax (onsetsOf we))).map
    (interpPairs (we.insertionSort onsetLE))

/-- The zero-padded signal:
`np.concatenate([np.zeros((5, n_feature)), downsampled, np.zeros((2, 100))])`. -/
def paddedOf (we : List WordRow) : Mat :=
  zeros 5 n_feature ++ bodyOf we ++ zeros 2 100

/-- Per-column causal HRF convolution:
`np.array([np.convolve(x, hrf_weight)[:len(x)] for x in padded.T]).T`. -/
def convCols (B : Mat) (w : List ℚ) : Mat :=
  transposeM ((transposeM B).map (fun x => (npConvolve x w).take x.length))

/-- `downsample_embeddings(word_embeddings, kind='linear', convolve_hrf)`.
Failure cases are the ones numpy/scipy raise: fewer than two interpolation
knots (`interp1d` refuses), and column mismatch in `np.concatenate`
(which demands the two pads' widths — the global `n_feature` and the
literal 100 — to equal the embedding block's width). -/
def downsample_embeddings (we : List WordRow) (hrf_weight : List ℚ)
    (convolve_hrf : Bool) : Except String Mat :=
  if (onsetsOf we).length < 2 then
    .error "x and y arrays must have at least 2 entries"
  else if ((we.headD (0, [])).2).length = n_feature
      ∧ ((we.headD (0, [])).2).length = 100 then
    if convolve_hrf then .ok (convCols (paddedOf we) hrf_weight)
    else .ok (paddedOf we)
  else
    .error "all the input array dimensions must match exactly"

/-! ## Leave-one-subject-out decoder

The source preallocates `X_train = np.zeros((1310*len(train_index), 268))`
and `y_train = np.zeros((1310*len(train_index), 100))` and fills them by
slice assignment per training subject; numpy slice assignment broadcasts a
source whose mismatching dimension equals 1 and raises otherwise.  The
`LinearRegression().fit(...).predict(...)` composite is an opaque `fit`
parameter (an external library treated as a black box), as is
`cosine_similarity`. -/

/-- numpy broadcast of one row into width `C`: exact width passes through,
width 1 is tiled, anything else fails. -/
def broadcastRow (C : ℕ) (row : List ℚ) : Option (List ℚ) :=
  if row.length = C then some row
  else if row.length = 1 then some (List.replicate C (row.headD 0))
  else none

/-- numpy broadcast of a matrix into shape `len × C`. -/
def broadcastTo (len C : ℕ) (src : Mat) : Option Mat :=
  if src.length = len then src.mapM (broadcastRow C)
  else if src.length = 1 then (broadcastRow C (src.headD [])).map (List.replicate len)
  else none

/-- numpy slice assignment `target[a:b, :] = src` (with broadcasting). -/
def sliceAssign (target : Mat) (a b : ℕ) (src : Mat) : Except String Mat :=
  match broadcastTo (b - a) (ncols target) src with
  | some s => .ok (target.take a ++ s ++ target.drop b)
  | none => .error "could not broadcast"

/-- The training indices of the fold holding out subject `i`
(`LeaveOneOut().split` yields all other indices in increasing order). -/
def trainIndex (N i : ℕ) : List ℕ := (List.range N).filter (fun j => j ≠ i)

/-- Body of the training-set assembly loop, at enumerated position
`p = (k, idx)`: slice-assign subject `idx`'s matrix into rows
`k*1310 : (k+1)*1310` of `X_train` and the shared target `Y` into the same
rows of `y_train`, in that order, exactly as the source loop does. -/
def foldStep (X : List Mat) (Y : Mat) (acc : Mat × Mat) (p : ℕ × ℕ) :
    Except String (Mat × Mat) := do
  let Xt ← sliceAssign acc.1 (p.1 * 1310) ((p.1 + 1) * 1310) (X.getD p.2 [])
  let yt ← sliceAssign acc.2 (p.1 * 1310) ((p.1 + 1) * 1310) Y
  pure (Xt, yt)

/-- Assemble one fold's `(X_train, y_train, X_test)` exactly as the source
loop does: zero preallocation at the hardcoded shapes
`(1310*len(train), 268)` and `(1310*len(train), 100)`, then per-subject
slice assignment. -/
def buildFold (X : List Mat) (Y : Mat) (i : ℕ) : Except String (Mat × Mat × Mat) := do
  let tr := trainIndex X.length i
  let res ← tr.enum.foldlM (foldStep X Y)
    (zeros (1310 * tr.length) 268, zeros (1310 * tr.length) 100)
  pure (res.1, res.2, X.getD i [])

/-- One fold of the decoder: assemble the fold, fit the regression on the
training pair and predict on the held-out subject.  `fit Xtr ytr Xte`
stands for `LinearRegression().fit(Xtr, ytr).predict(Xte)`. -/
def decodeFold (fit : Mat → Mat → Mat → Mat) (X : List Mat) (Y : Mat) (i : ℕ) :
    Except String Mat :=
  (buildFold X Y i).map (fun t => fit t.1 t.2.1 t.2.2)

/-- A trivial instantiation of the opaque regression parameter (used to
exercise the plumbing theorems on concrete inputs). -/
def fit0 : Mat → Mat → Mat → Mat := fun _ _ Xte => Xte

/-- A two-word table with onsets 0 and 2 and all-zero 100-wide vectors. -/
def c5we : List WordRow :=
  [((0 : ℚ), List.replicate 100 0), ((2 : ℚ), List.replicate 100 0)]

/-- A two-word table with onsets 0 and 2 whose vectors are the constant
0-vector and the constant 4-vector. -/
def c4we : List WordRow :=
  [((0 : ℚ), List.replicate 100 0), ((2 : ℚ), List.replicate 100 4)]

/-- The resampler output (identity kernel) on `c4we`. -/
def c4orig : Mat :=
  zeros 5 100 ++ [List.replicate 100 (0 : ℚ), List.replicate 100 2] ++ zeros 2 100

/-- The resampler output (identity kernel) on `c4we` with its two word
vectors swapped: the interpolated row values change, they are not a
reordering of `c4orig`'s rows. -/
def c4scr : Mat :=
  zeros 5 100 ++ [List.replicate 100 (4 : ℚ), List.replicate 100 2] ++ zeros 2 100

/-- A trivial instantiation of the opaque cosine-similarity parameter. -/
def cos0 : Mat → Mat → Mat := fun A _ => A

/-! ## Rank-based scoring -/

/-- The comparison `np.argsort` uses on indices of a similarity row:
ascending by value, ties by index (a deterministic realisation of the
unspecified tie order). -/
def argRel (v : List ℚ) (a b : ℕ) : Prop :=
  v.getD a 0 < v.getD b 0 ∨ (v.getD a 0 = v.getD b 0 ∧ a ≤ b)

instance argRelDec (v : List ℚ) : DecidableRel (argRel v) := fun a b => by
  unfold argRel; infer_instance

/-- `similarity[j,:].argsort()`: the row's index list sorted ascending by
value. -/
def argsortL (v : List ℚ) : List ℕ :=
  (List.range v.length).insertionSort (argRel v)

/-- `argsort()[-K:]` — Python's last-`K` slice (the whole list when
`K` exceeds the length, like the Python slice). -/
def topIdx (v : List ℚ) (K : ℕ) : List ℕ :=
  (argsortL v).drop (v.length - K)

/-- Whether time point `j` is a hit: `j in similarity[j,:].argsort()[-K:][::-1]`
(membership is unaffected by the reversal). -/
def rowHit (v : List ℚ) (K j : ℕ) : Bool := decide (j ∈ topIdx v K)

/-- The fold's hit count: the source loop over the similarity rows. -/
def foldHits (sim : Mat) (K : ℕ) : ℕ :=
  (List.range sim.length).countP (fun j => rowHit (sim.getD j []) K j)

/-- The fold accuracy the source reports: `100*hit/1310` percent, with the
denominator hardcoded to 1310. -/
def foldAccPct (sim : Mat) (K : ℕ) : ℚ := 100 * (foldHits sim K : ℚ) / 1310

/-- The full decoding loop: for every held-out subject, assemble, fit,
predict, score against the shared target with `cos` standing for
`sklearn.metrics.pairwise.cosine_similarity`; collects the per-fold hit
counts (`test_hit` in the source). -/
def decodeRun (fit : Mat → Mat → Mat → Mat) (cos : Mat → Mat → Mat) (K : ℕ)
    (X : List Mat) (Y : Mat) : Except String (List ℕ) :=
  (List.range X.length).mapM (fun i => do
    let pred ← decodeFold fit X Y i
    pure (foldHits (cos pred Y) K))

/-! ## Scrambling baseline -/

/-- One scrambling draw: keep the `onset` (and `word`) columns in place and
reindex the embedding block's rows by `perm`
(`word_embedding.iloc[perm, 2:]` with a reset index, concatenated back). -/
def scrambleWords (perm : List ℕ) (we : List WordRow) : List WordRow :=
  (List.range we.length).map (fun k =>
    ((we.getD k (0, [])).1, (we.getD (perm.getD k 0) (0, [])).2))

/-- One baseline trial: scramble the word order, re-run the resampling and
the full leave-one-subject-out decode on the scrambled target (`zsc`
stands for `scipy.stats.zscore(., axis=0)`). -/
def scramTrial (fit : Mat → Mat → Mat → Mat) (cos : Mat → Mat → Mat) (K : ℕ)
    (X : List Mat) (we : List WordRow) (hrf_weight : List ℚ) (zsc : Mat → Mat)
    (perm : List ℕ) : Except String (List ℕ) := do
  let emb ← downsample_embeddings (scrambleWords perm we) hrf_weight true
  decodeRun fit cos K X (zsc emb)

/-! ## Randomness accounting

`np.random.permutation` is the only random primitive the pipeline touches.
It is modelled as a stateful draw from a stream of permutations, so that
consuming randomness is visible in the state. -/

instance argRelTotal (v : List ℚ) : IsTotal ℕ (argRel v) := by
  constructor
  intro a b
  rcases lt_trichotomy (v.getD a 0) (v.getD b 0) with h | h | h
  · exact Or.inl (Or.inl h)
  · rcases le_total a b with hab | hba
    · exact Or.inl (Or.inr ⟨h, hab⟩)
    · exact Or.inr (Or.inr ⟨h.symm, hba⟩)
  · exact Or.inr (Or.inl h)

instance argRelTrans (v : List ℚ) : IsTrans ℕ (argRel v) := by
  constructor
  intro a b c hab hbc
  rcases hab with hab | ⟨hab, hab'⟩ <;> rcases hbc with hbc | ⟨hbc, hbc'⟩
  · exact Or.inl (hab.trans hbc)
  · exact Or.inl (hbc ▸ hab)
  · exact Or.inl (hab ▸ hbc)
  · exact Or.inr ⟨hab.trans hbc, hab'.trans hbc'⟩

/-- A similarity row has pairwise distinct values (the spec's
"measure-zero ties" situation, under which the top-K set is well defined). -/
def distinctVals (v : List ℚ) : Prop :=
  (List.range v.length).Pairwise (fun a b => v.getD a 0 ≠ v.getD b 0)

instance (v : List ℚ) : Decidable (distinctVals v) := by
  unfold distinctVals; infer_instance

/-- Modelled from the spec's words ("output length always equals
`ceil(max_onset) - floor(min_onset)` plus the configured pre/post pad
widths"): the claimed output length. -/
def specResamplerLen (mn mx : ℚ) : ℤ := ⌈mx⌉ - ⌊mn⌋ + 5 + 2

/-- The design matrix the spec describes: the vertical concatenation of
every subject's rows except subject `i`'s. -/
def stackTrain (X : List Mat) (i : ℕ) : Mat :=
  ((trainIndex X.length i).map (fun j => X.getD j [])).flatten

/-- The target the spec describes: the embedding matrix tiled `n` times. -/
def tileTarget (Y : Mat) (n : ℕ) : Mat := (List.replicate n Y).flatten

/-- The global numpy RNG: a cursor into a fixed stream of draws. -/
structure RngState where
  cursor : ℕ
  draws : ℕ → List ℕ

/-- `np.random.permutation(n)`: return the next draw, advance the cursor. -/
def randPermutation (_n : ℕ) : StateM RngState (List ℕ) := fun s =>
  (s.draws s.cursor, ⟨s.cursor + 1, s.draws⟩)

/-- The non-scrambled decoder as run in the program environment: it makes
no call to the RNG, so it is a pure value in the state monad. -/
def decodeRunM (fit : Mat → Mat → Mat → Mat) (cos : Mat → Mat → Mat) (K : ℕ)
    (X : List Mat) (Y : Mat) : StateM RngState (Except String (List ℕ)) :=
  pure (decodeRun fit cos K X Y)

/-- The scrambling baseline: each trial draws a fresh permutation from the
RNG and re-runs the decode on the scrambled target. -/
def scramBaselineM (fit : Mat → Mat → Mat → Mat) (cos : Mat → Mat → Mat) (K : ℕ)
    (X : List Mat) (we : List WordRow) (hrf_weight : List ℚ) (zsc : Mat → Mat)
    (n_iter : ℕ) : StateM RngState (List (Except String (List ℕ))) :=
  (List.range n_iter).mapM (fun _ => do
    let p ← randPermutation we.length
    pure (scramTrial fit cos K X we hrf_weight zsc p))

/-! ## Claim C8: the transcript token cleaner -/

theorem reSubRemove_eq_filter (cs : List Char) : reSubRemove cs = cs.filter keepChar := by
  induction cs with
  | nil => rfl
  | cons c cs ih =>
    by_cases h : keepChar c <;> simp [reSubRemove, List.filter_cons, h, ih]

/-- Claim C8 counterexample: the source regex class `[^A-Za-z ']` keeps the
space character, so `clean_text` does not remove every character outside
the Latin alphabet and the apostrophe: on `"a b"` it returns `"a b"`, not
the `"ab"` the claim mandates. -/
theorem clean_text_keeps_space :
    clean_text "a b" = "a b" ∧ clean_text "a b" ≠ "ab" := by
  constructor <;> decide

/-- Claim C8 (amended): `clean_text` returns the input with every character
outside the Latin alphabet, the space and the apostrophe removed, in
order, and the survivors case-folded to lowercase; every output character
arises from a retained input character. -/
theorem clean_text_spec (s : String) :
    (clean_text s).data = (s.data.filter keepChar).map pyLower
    ∧ ∀ c ∈ (clean_text s).data, ∃ c' ∈ s.data, keepChar c' = true ∧ c = pyLower c' := by
  refine ⟨by simp [clean_text, reSubRemove_eq_filter], ?_⟩
  intro c hc
  simp only [clean_text, reSubRemove_eq_filter, String.data] at hc
  obtain ⟨c', hc', rfl⟩ := List.mem_map.1 hc
  exact ⟨c', (List.mem_filter.1 hc').1, (List.mem_filter.1 hc').2, rfl⟩

/-! ## Claim C7: the embedding loader -/

theorem except_bind_ok {ε α β : Type} (a : α) (f : α → Except ε β) :
    (Except.ok a >>= f) = f a := rfl

theorem except_bind_error {ε α β : Type} (e : ε) (f : α → Except ε β) :
    ((Except.error e : Except ε α) >>= f) = Except.error e := rfl

theorem mapM_option_length {α β : Type} (f : α → Option β) :
    ∀ (l : List α) (v : List β), l.mapM f = some v → v.length = l.length := by
  intro l
  induction l with
  | nil =>
    intro v h
    simp only [List.mapM_nil, pure, Option.some.injEq] at h
    simp [← h]
  | cons a l ih =>
    intro v h
    rw [List.mapM_cons] at h
    cases hfa : f a with
    | none => rw [hfa] at h; simp at h
    | some b =>
      rw [hfa] at h
      cases hml : l.mapM f with
      | none => rw [hml] at h; simp at h
      | some bs =>
        rw [hml] at h
        simp only [Option.bind_eq_bind, Option.some_bind, Option.pure_def,
          Option.some.injEq] at h
        simp [← h, List.length_cons, ih bs hml]

theorem mem_dictInsert {d : List (List Char × List ℚ)} {k : List Char} {v : List ℚ}
    {p : List Char × List ℚ} (hp : p ∈ dictInsert d k v) : p = (k, v) ∨ p ∈ d := by
  unfold dictInsert at hp
  split at hp
  · obtain ⟨q, hq, hqe⟩ := List.mem_map.1 hp
    by_cases h : q.1 == k
    · rw [if_pos h] at hqe
      exact Or.inl hqe.symm
    · rw [if_neg h] at hqe
      exact Or.inr (hqe ▸ hq)
  · rcases List.mem_append.1 hp with h | h
    · exact Or.inr h
    · exact Or.inl (by simpa using h)

theorem splitOnChar_ne_nil (sep : Char) (cs : List Char) : splitOnChar sep cs ≠ [] := by
  cases cs with
  | nil => simp [splitOnChar]
  | cons c cs => simp only [splitOnChar]; split <;> simp

theorem glove_fold_entries :
    ∀ (lines : List (List Char)) (d m : List (List Char × List ℚ)),
      lines.foldlM gloveStep d = Except.ok m →
      ∀ p ∈ m, p ∈ d ∨ ∃ line ∈ lines,
        p.1 = (splitOnChar ' ' line).headD [] ∧
        p.2.length + 1 = (splitOnChar ' ' line).length := by
  intro lines
  induction lines with
  | nil =>
    intro d m h p hp
    have hdm : d = m := by simpa [List.foldlM_nil, pure, Except.pure] using h
    exact Or.inl (hdm ▸ hp)
  | cons l ls ih =>
    intro d m h p hp
    rw [List.foldlM_cons] at h
    cases hg : gloveStep d l with
    | error e => rw [hg, except_bind_error] at h; exact absurd h (by simp)
    | ok d' =>
      rw [hg, except_bind_ok] at h
      rcases ih d' m h p hp with hd' | ⟨line, hline, hq⟩
      · unfold gloveStep at hg
        cases hmf : ((splitOnChar ' ' l).drop 1).mapM pyFloat with
        | none => rw [hmf] at hg; exact absurd hg (by simp)
        | some vec =>
          rw [hmf] at hg
          simp only [Except.ok.injEq] at hg
          rcases mem_dictInsert (hg ▸ hd') with rfl | hpd
          · refine Or.inr ⟨l, List.mem_cons_self l ls, rfl, ?_⟩
            have hlen := mapM_option_length pyFloat _ _ hmf
            have hpos : 1 ≤ (splitOnChar ' ' l).length :=
              List.length_pos.2 (splitOnChar_ne_nil ' ' l)
            simp only [hlen, List.length_drop]
            omega
          · exact Or.inl hpd
      · exact Or.inr ⟨line, List.mem_cons_of_mem l hline, hq⟩

/-- Claim C7 counterexample: the loader performs no validation at all.  A
line whose trailing field is not numeric aborts the whole load with an
error (it is not skipped, no warning), and lines with differing numbers of
values all survive, producing vectors of differing lengths in the mapping
(so no single dimension `D` is enforced). -/
theorem glove_no_validation :
    get_glove_model ("a 1\nb x".data) = Except.error "could not convert string to float"
    ∧ get_glove_model ("a 1\nb 2 3".data) =
        Except.ok [(['a'], [1]), (['b'], [2, 3])] :=
  ⟨rfl, rfl⟩

/-- Claim C7 (amended): every line is parsed unconditionally — the first
space-separated field becomes the token and the remaining fields are
`float`ed, so each stored vector's length is the field count of its line
minus one (whatever that is), and any non-numeric field aborts the load
with an error instead of skipping the line. -/
theorem get_glove_model_entries (text : List Char) (m : List (List Char × List ℚ))
    (h : get_glove_model text = Except.ok m) :
    ∀ p ∈ m, ∃ line ∈ splitOnChar '\n' text,
      p.1 = (splitOnChar ' ' line).headD [] ∧
      p.2.length + 1 = (splitOnChar ' ' line).length := by
  intro p hp
  rcases glove_fold_entries _ [] m h p hp with hd | hex
  · exact absurd hd (by simp)
  · exact hex

/-- Witness for C7: a two-line resource with vectors of lengths 2 and 1. -/
theorem get_glove_model_entries_witness :
    get_glove_model ("a 1 2\nb 3".data) = Except.ok [(['a'], [1, 2]), (['b'], [3])]
    ∧ ∀ p ∈ [(['a'], ([1, 2] : List ℚ)), (['b'], [3])],
        ∃ line ∈ splitOnChar '\n' ("a 1 2\nb 3".data),
          p.1 = (splitOnChar ' ' line).headD [] ∧
          p.2.length + 1 = (splitOnChar ' ' line).length :=
  ⟨rfl, get_glove_model_entries _ _ rfl⟩

/-! ## Claim C2: rank-based hit criterion and fold accuracy -/

theorem distinctVals_eq {v : List ℚ} (hd : distinctVals v) {a b : ℕ}
    (ha : a < v.length) (hb : b < v.length) (hab : v.getD a 0 = v.getD b 0) : a = b := by
  by_contra hne
  rcases Nat.lt_or_ge a b with h | h
  · have hp := (List.pairwise_iff_getElem.1 hd) a b (by simpa) (by simpa) h
    simp only [List.getElem_range] at hp
    exact hp hab
  · have hba : b < a := by omega
    have hp := (List.pairwise_iff_getElem.1 hd) b a (by simpa) (by simpa) hba
    simp only [List.getElem_range] at hp
    exact hp hab.symm

theorem range_map_getD (v : List ℚ) :
    (List.range v.length).map (fun j => v.getD j 0) = v := by
  apply List.ext_getElem
  · simp
  · intro i h1 h2
    simp [List.getD_eq_getElem?_getD, List.getElem?_eq_getElem h2]

theorem countP_vals (v : List ℚ) (c : ℚ) :
    v.countP (fun y => decide (c < y)) =
      (List.range v.length).countP (fun j => decide (c < v.getD j 0)) := by
  conv_lhs => rw [← range_map_getD v]
  rw [List.countP_map]
  rfl

theorem mem_drop_of_split {t : ℕ} (l₁ l₂ : List ℕ) (n : ℕ) (_h1 : t ∉ l₁) (h2 : t ∉ l₂) :
    t ∈ (l₁ ++ t :: l₂).drop n ↔ n ≤ l₁.length := by
  constructor
  · intro hmem
    by_contra hn
    push_neg at hn
    obtain ⟨m, rfl⟩ : ∃ m, n = l₁.length + m := ⟨n - l₁.length, by omega⟩
    rw [List.drop_append] at hmem
    have hm : 1 ≤ m := by omega
    obtain ⟨m', rfl⟩ : ∃ m', m = m' + 1 := ⟨m - 1, by omega⟩
    rw [List.drop_succ_cons] at hmem
    exact h2 (List.drop_subset _ _ hmem)
  · intro hn
    rw [List.drop_append_of_le_length hn]
    exact List.mem_append_right _ (List.mem_cons_self t l₂)

theorem mem_drop_argsort_iff (v : List ℚ) (K t : ℕ) (ht : t < v.length)
    (hd : distinctVals v) :
    t ∈ (argsortL v).drop (v.length - K) ↔
      v.countP (fun y => decide (v.getD t 0 < y)) < K := by
  have hperm : List.Perm (argsortL v) (List.range v.length) :=
    List.perm_insertionSort _ _
  have hlen : (argsortL v).length = v.length := by
    rw [hperm.length_eq, List.length_range]
  have hnd : (argsortL v).Nodup := hperm.nodup_iff.2 (List.nodup_range _)
  have hmem : ∀ j ∈ argsortL v, j < v.length := fun j hj =>
    List.mem_range.1 (hperm.mem_iff.1 hj)
  have hsort : List.Sorted (argRel v) (argsortL v) := List.sorted_insertionSort _ _
  have ht' : t ∈ argsortL v := hperm.mem_iff.2 (List.mem_range.2 ht)
  obtain ⟨l₁, l₂, hsplit⟩ := List.append_of_mem ht'
  have hnd' := hsplit ▸ hnd
  have hsort' := hsplit ▸ hsort
  rw [List.nodup_append] at hnd'
  obtain ⟨hnd1, hnd2, hdisj⟩ := hnd'
  have htl₁ : t ∉ l₁ := fun h => hdisj h (List.mem_cons_self t l₂)
  have htl₂ : t ∉ l₂ := (List.nodup_cons.1 hnd2).1
  have hmem' : ∀ j ∈ l₁ ++ t :: l₂, j < v.length := fun j hj => hmem j (hsplit ▸ hj)
  rw [List.Sorted, List.pairwise_append] at hsort'
  obtain ⟨hs1, hs2, hs12⟩ := hsort'
  -- everything before t is strictly smaller, everything after strictly bigger
  have hlt1 : ∀ a ∈ l₁, ¬ (v.getD t 0 < v.getD a 0) := by
    intro a ha
    rcases hs12 a ha t (List.mem_cons_self t l₂) with h | ⟨he, _⟩
    · exact lt_asymm h
    · exact absurd (distinctVals_eq hd (hmem' a (List.mem_append_left _ ha))
        ht he) (fun hh => htl₁ (hh ▸ ha))
  have hlt2 : ∀ b ∈ l₂, v.getD t 0 < v.getD b 0 := by
    intro b hb
    rcases List.rel_of_sorted_cons hs2 b hb with h | ⟨he, _⟩
    · exact h
    · exact absurd (distinctVals_eq hd ht
        (hmem' b (List.mem_append_right _ (List.mem_cons_of_mem t hb))) he)
        (fun hh => htl₂ (hh ▸ hb))
  -- the count of strictly larger values is the length of the tail
  have hcount : v.countP (fun y => decide (v.getD t 0 < y)) = l₂.length := by
    rw [countP_vals v (v.getD t 0), ← hperm.countP_eq, hsplit, List.countP_append,
      List.countP_cons]
    have c1 : l₁.countP (fun j => decide (v.getD t 0 < v.getD j 0)) = 0 :=
      List.countP_eq_zero.2 (fun a ha => by simpa using hlt1 a ha)
    have c2 : l₂.countP (fun j => decide (v.getD t 0 < v.getD j 0)) = l₂.length :=
      List.countP_eq_length.2 (fun b hb => by simpa using hlt2 b hb)
    rw [c1, c2]
    simp
  have hlen' : l₁.length + 1 + l₂.length = v.length := by
    have h := hlen
    rw [hsplit] at h
    simp only [List.length_append, List.length_cons] at h
    omega
  rw [hsplit, mem_drop_of_split l₁ l₂ _ htl₁ htl₂, hcount]
  omega

/-- Claim C2 counterexample: the fold accuracy the source prints is
`100*hit/1310` with the denominator hardcoded; on a 1×1 similarity matrix
the single time point is a (trivial) hit, yet the reported accuracy is
`100/1310`, not `hits/T = 1`. -/
theorem foldAcc_hardcoded :
    foldHits [[(1 : ℚ)]] 10 = 1
    ∧ foldAccPct [[(1 : ℚ)]] 10 ≠
        100 * (foldHits [[(1 : ℚ)]] 10 : ℚ) / (nrows [[(1 : ℚ)]] : ℚ) := by
  have h1 : foldHits [[(1 : ℚ)]] 10 = 1 := rfl
  refine ⟨h1, ?_⟩
  rw [foldAccPct, h1]
  norm_num [nrows]

/-- Claim C2 (amended): with pairwise-distinct similarity values in row
`t`, time point `t` is a hit exactly when fewer than `K` entries of the
row are strictly larger (i.e. `t` is among the `K` indices of highest
similarity), and the fold's reported accuracy is `100*hits/1310`, which
equals `100*hits/T` exactly on the `T = 1310` folds of the pipeline. -/
theorem fold_hit_rank (v : List ℚ) (K t : ℕ) (ht : t < v.length)
    (hd : distinctVals v) :
    (rowHit v K t = true ↔ v.countP (fun y => decide (v.getD t 0 < y)) < K)
    ∧ ∀ (sim : Mat) (K' : ℕ), sim.length = 1310 →
        foldAccPct sim K' = 100 * (foldHits sim K' : ℚ) / (sim.length : ℚ) := by
  constructor
  · rw [rowHit, decide_eq_true_iff, topIdx]
    exact mem_drop_argsort_iff v K t ht hd
  · intro sim K' hsz
    rw [foldAccPct, hsz]
    norm_num

/-- Witness for C2 at `v = [0, 1, 2]`, `K = 1`, `t = 2`. -/
theorem fold_hit_rank_witness :
    (2 < ([(0 : ℚ), 1, 2]).length ∧ distinctVals [(0 : ℚ), 1, 2])
    ∧ ((rowHit [(0 : ℚ), 1, 2] 1 2 = true ↔
          ([(0 : ℚ), 1, 2]).countP
            (fun y => decide (([(0 : ℚ), 1, 2]).getD 2 0 < y)) < 1)
        ∧ ∀ (sim : Mat) (K' : ℕ), sim.length = 1310 →
            foldAccPct sim K' = 100 * (foldHits sim K' : ℚ) / (sim.length : ℚ)) :=
  ⟨⟨by decide, by decide⟩, fold_hit_rank [(0 : ℚ), 1, 2] 1 2 (by decide) (by decide)⟩

/-! ## Resampler structure lemmas -/

theorem npConvolve_length (x w : List ℚ) :
    (npConvolve x w).length = x.length + w.length - 1 := by
  simp [npConvolve]

theorem bodyOf_length (we : List WordRow) :
    (bodyOf we).length = arangeLen (npMin (onsetsOf we)) (npMax (onsetsOf we)) := by
  rw [bodyOf, List.length_map, arange, List.length_map, List.length_range]

theorem paddedOf_length (we : List WordRow) :
    (paddedOf we).length = 5 + (bodyOf we).length + 2 := by
  simp [paddedOf, zeros]
  omega

theorem ncols_paddedOf (we : List WordRow) : ncols (paddedOf we) = 100 := rfl

theorem convCols_length (B : Mat) (w : List ℚ) (hB : ncols B = 100) :
    (convCols B w).length = min B.length (B.length + w.length - 1) := by
  have h1 : transposeM B = (List.range 100).map (fun j => B.map (fun r => r.getD j 0)) := by
    rw [transposeM, hB]
  rw [convCols, h1, show (100 : ℕ) = 99 + 1 from rfl, List.range_succ_eq_map,
    List.map_cons, List.map_cons, transposeM]
  rw [List.length_map, List.length_range]
  show ((npConvolve (B.map (fun r => r.getD 0 0)) w).take
    (B.map (fun r => r.getD 0 0)).length).length = _
  rw [List.length_take, npConvolve_length, List.length_map]

theorem downsample_ok_length {we : List WordRow} {hrf : List ℚ} {cb : Bool} {M : Mat}
    (h : downsample_embeddings we hrf cb = Except.ok M) : 2 ≤ M.length := by
  unfold downsample_embeddings at h
  split_ifs at h with h1 h2 h3 <;> simp only [Except.ok.injEq] at h
  · subst h
    rw [convCols_length _ _ (ncols_paddedOf we), paddedOf_length]
    omega
  · subst h
    rw [paddedOf_length]
    omega

/-- Structural evaluation of the resampler on well-formed input: both
length guards pass and the result is the (optionally convolved) padded
interpolation. -/
theorem downsample_eq_of (we : List WordRow) (hrf : List ℚ) (cb : Bool)
    (h2 : 2 ≤ we.length) (hF100 : ((we.headD (0, [])).2).length = 100) :
    downsample_embeddings we hrf cb =
      Except.ok (if cb then convCols (paddedOf we) hrf else paddedOf we) := by
  unfold downsample_embeddings
  rw [if_neg (by simp only [onsetsOf, List.length_map]; omega),
    if_pos ⟨hF100, hF100⟩]
  cases cb <;> rfl

/-! ## Claim C10: hardcoded pads and embedding width -/

/-- Claim C10: the resampler pads exactly 5 zero rows in front and 2
behind, the two pads' widths are the constants `n_feature` and the
literal 100, and consequently (for any uniform embedding width `F`) the
function returns a value exactly when `F = 100`; any other width makes
the concatenation fail. -/
theorem downsample_pads_and_dim (we : List WordRow) (hrf : List ℚ) (cb : Bool) (F : ℕ)
    (h2 : 2 ≤ we.length) (hF : ∀ p ∈ we, p.2.length = F) :
    ((∃ M, downsample_embeddings we hrf cb = Except.ok M) ↔ F = 100)
    ∧ (F = 100 → downsample_embeddings we hrf false =
        Except.ok (zeros 5 100 ++ bodyOf we ++ zeros 2 100)) := by
  obtain ⟨w, ws, rfl⟩ : ∃ w ws, we = w :: ws := by
    cases we with
    | nil => simp at h2
    | cons w ws => exact ⟨w, ws, rfl⟩
  have hw : w.2.length = F := hF w (List.mem_cons_self w ws)
  have hlen : ¬ ((onsetsOf (w :: ws)).length < 2) := by
    simp only [onsetsOf, List.length_map]
    omega
  have hhead : ((w :: ws).headD (0, [])).2.length = F := hw
  constructor
  · constructor
    · rintro ⟨M, hM⟩
      unfold downsample_embeddings at hM
      rw [if_neg hlen] at hM
      by_cases hc : ((w :: ws).headD (0, [])).2.length = n_feature
          ∧ ((w :: ws).headD (0, [])).2.length = 100
      · rw [hhead] at hc
        exact hc.2
      · rw [if_neg hc] at hM
        simp at hM
    · intro hF100
      unfold downsample_embeddings
      rw [if_neg hlen, if_pos (by rw [hhead, hF100]; exact ⟨rfl, rfl⟩)]
      cases cb <;> exact ⟨_, rfl⟩
  · intro hF100
    unfold downsample_embeddings
    rw [if_neg hlen, if_pos (by rw [hhead, hF100]; exact ⟨rfl, rfl⟩)]
    rfl

/-- Witness for C10, at width `F = 1 ≠ 100` (the iff instantiates to
`∃ M, … ↔ False`, i.e. the concatenation fails). -/
theorem downsample_pads_and_dim_witness :
    (2 ≤ ([((0 : ℚ), [(1 : ℚ)]), ((2 : ℚ), [(1 : ℚ)])] : List WordRow).length
      ∧ ∀ p ∈ ([((0 : ℚ), [(1 : ℚ)]), ((2 : ℚ), [(1 : ℚ)])] : List WordRow),
          p.2.length = 1)
    ∧ ((∃ M, downsample_embeddings [((0 : ℚ), [(1 : ℚ)]), ((2 : ℚ), [(1 : ℚ)])] [1] true
          = Except.ok M) ↔ (1 : ℕ) = 100)
    ∧ ((1 : ℕ) = 100 → downsample_embeddings [((0 : ℚ), [(1 : ℚ)]), ((2 : ℚ), [(1 : ℚ)])] [1] false
        = Except.ok (zeros 5 100 ++ bodyOf [((0 : ℚ), [(1 : ℚ)]), ((2 : ℚ), [(1 : ℚ)])] ++ zeros 2 100)) :=
  ⟨⟨by decide, by decide⟩,
    (downsample_pads_and_dim _ [1] true 1 (by decide) (by decide)).1,
    (downsample_pads_and_dim _ [1] true 1 (by decide) (by decide)).2⟩

/-! ## Claim C3: resampler output length -/

theorem except_map_ok {α β : Type} (f : α → β) (a : α) :
    Except.map f (Except.ok a : Except String α) = Except.ok (f a) := rfl

/-- Claim C3 counterexample: for onsets 1/2 and 5/2 the resampler output
has `⌈max - min⌉ + 7 = 9` rows, while the spec's formula
`⌈max⌉ - ⌊min⌋ + 7` gives 10. -/
theorem resampler_len_gap :
    Except.map List.length
        (downsample_embeddings
          [((1 : ℚ)/2, List.replicate 100 0), ((5 : ℚ)/2, List.replicate 100 0)] [1] true)
      = Except.ok 9
    ∧ specResamplerLen ((1 : ℚ)/2) ((5 : ℚ)/2) = 10
    ∧ ((9 : ℤ) ≠ 10) := by
  have hceil : (⌈(5 : ℚ)/2⌉ : ℤ) = 3 := by
    rw [Int.ceil_eq_iff] ; norm_num
  have hfloor : (⌊(1 : ℚ)/2⌋ : ℤ) = 0 := by
    rw [Int.floor_eq_iff] ; norm_num
  refine ⟨?_, by rw [specResamplerLen, hceil, hfloor]; norm_num, by decide⟩
  rw [downsample_eq_of _ _ _ (by decide) (by simp), if_pos rfl, except_map_ok]
  rw [convCols_length _ _ (ncols_paddedOf _), paddedOf_length, bodyOf_length]
  have hm : npMin (onsetsOf
      [((1 : ℚ)/2, List.replicate 100 (0 : ℚ)), ((5 : ℚ)/2, List.replicate 100 0)]) = 1/2 := by
    norm_num [npMin, onsetsOf, min_def]
  have hx : npMax (onsetsOf
      [((1 : ℚ)/2, List.replicate 100 (0 : ℚ)), ((5 : ℚ)/2, List.replicate 100 0)]) = 5/2 := by
    norm_num [npMax, onsetsOf, max_def]
  rw [hm, hx]
  have harl : arangeLen ((1 : ℚ)/2) ((5 : ℚ)/2) = 2 := by
    rw [arangeLen]
    norm_num
    decide
  rw [harl]
  norm_num

/-- Claim C3 (amended): the resampler's output length is the arange sample
count `⌈max_onset - min_onset⌉` plus the 5-row leading and 2-row trailing
pads — a function of the extreme onsets only, so in particular unaffected
by how many interior words were dropped by embedding-lookup misses. -/
theorem resampler_length (we : List WordRow) (hrf : List ℚ) (cb : Bool)
    (h2 : 2 ≤ we.length) (hF : ∀ p ∈ we, p.2.length = 100) (hw : hrf ≠ []) :
    Except.map List.length (downsample_embeddings we hrf cb)
      = Except.ok (5 + arangeLen (npMin (onsetsOf we)) (npMax (onsetsOf we)) + 2)
    ∧ (npMin (onsetsOf we) < npMax (onsetsOf we) →
        (arangeLen (npMin (onsetsOf we)) (npMax (onsetsOf we)) : ℤ)
          = ⌈npMax (onsetsOf we) - npMin (onsetsOf we)⌉) := by
  have hF100 : ((we.headD (0, [])).2).length = 100 := by
    obtain ⟨w, ws, rfl⟩ : ∃ w ws, we = w :: ws := by
      cases we with
      | nil => simp at h2
      | cons w ws => exact ⟨w, ws, rfl⟩
    exact hF w (List.mem_cons_self w ws)
  constructor
  · rw [downsample_eq_of we hrf cb h2 hF100]
    cases cb
    · rw [if_neg (by simp), except_map_ok, paddedOf_length, bodyOf_length]
    · rw [if_pos rfl, except_map_ok,
        convCols_length _ _ (ncols_paddedOf _), paddedOf_length, bodyOf_length]
      have hw1 : 1 ≤ hrf.length := List.length_pos.2 hw
      congr 1
      omega
  · intro hlt
    rw [arangeLen]
    have hpos : 0 < ⌈npMax (onsetsOf we) - npMin (onsetsOf we)⌉ :=
      Int.ceil_pos.2 (by linarith)
    rw [Int.toNat_of_nonneg (le_of_lt hpos)]

/-- Witness for C3 at two integer onsets 0 and 2 (output length
`⌈2⌉ + 7 = 9`). -/
theorem resampler_length_witness :
    (2 ≤ ([((0 : ℚ), List.replicate 100 (0 : ℚ)), ((2 : ℚ), List.replicate 100 0)] : List WordRow).length
      ∧ (∀ p ∈ ([((0 : ℚ), List.replicate 100 (0 : ℚ)), ((2 : ℚ), List.replicate 100 0)] : List WordRow),
          p.2.length = 100)
      ∧ ([(1 : ℚ)] : List ℚ) ≠ [])
    ∧ (Except.map List.length
        (downsample_embeddings
          [((0 : ℚ), List.replicate 100 (0 : ℚ)), ((2 : ℚ), List.replicate 100 0)] [1] false)
        = Except.ok (5 + arangeLen
            (npMin (onsetsOf [((0 : ℚ), List.replicate 100 (0 : ℚ)), ((2 : ℚ), List.replicate 100 0)]))
            (npMax (onsetsOf [((0 : ℚ), List.replicate 100 (0 : ℚ)), ((2 : ℚ), List.replicate 100 0)]))
          + 2)) :=
  ⟨⟨by decide, by decide, by decide⟩,
    (resampler_length _ [1] false (by decide) (by decide) (by decide)).1⟩

/-! ## Fold-assembly lemmas -/

theorem except_map_error {α β : Type} (f : α → β) (e : String) :
    Except.map f (Except.error e : Except String α) = Except.error e := rfl

theorem mapM_some_id {α : Type} (f : α → Option α) :
    ∀ (l : List α), (∀ x ∈ l, f x = some x) → l.mapM f = some l := by
  intro l
  induction l with
  | nil => intro _; rfl
  | cons a l ih =>
    intro h
    rw [List.mapM_cons, h a (List.mem_cons_self a l), ih (fun x hx => h x (List.mem_cons_of_mem a hx))]
    rfl

theorem broadcastTo_exact {len C : ℕ} {src : Mat} (hl : src.length = len)
    (hr : ∀ r ∈ src, r.length = C) : broadcastTo len C src = some src := by
  rw [broadcastTo, if_pos hl]
  exact mapM_some_id _ src (fun r hrm => by rw [broadcastRow, if_pos (hr r hrm)])

theorem sliceAssign_exact {target : Mat} {a b : ℕ} {src : Mat}
    (hl : src.length = b - a) (hr : ∀ r ∈ src, r.length = ncols target) :
    sliceAssign target a b src = Except.ok (target.take a ++ src ++ target.drop b) := by
  rw [sliceAssign, broadcastTo_exact hl hr]

theorem sliceAssign_cases (target : Mat) (a b : ℕ) (src : Mat) :
    sliceAssign target a b src = Except.error "could not broadcast"
    ∨ ∃ M, sliceAssign target a b src = Except.ok M := by
  rw [sliceAssign]
  cases broadcastTo (b - a) (ncols target) src with
  | none => exact Or.inl rfl
  | some s => exact Or.inr ⟨_, rfl⟩

theorem sliceAssign_bad_rows {src : Mat} {a b : ℕ} (target : Mat)
    (h1 : src.length ≠ b - a) (h2 : src.length ≠ 1) :
    sliceAssign target a b src = Except.error "could not broadcast" := by
  rw [sliceAssign, broadcastTo, if_neg h1, if_neg h2]

theorem foldStep_cases (X : List Mat) (Y : Mat) (acc : Mat × Mat) (p : ℕ × ℕ) :
    foldStep X Y acc p = Except.error "could not broadcast"
    ∨ ∃ b, foldStep X Y acc p = Except.ok b := by
  unfold foldStep
  rcases sliceAssign_cases acc.1 (p.1 * 1310) ((p.1 + 1) * 1310) (X.getD p.2 []) with h | ⟨M, h⟩
  · rw [h, except_bind_error]
    exact Or.inl rfl
  · rw [h, except_bind_ok]
    rcases sliceAssign_cases acc.2 (p.1 * 1310) ((p.1 + 1) * 1310) Y with h' | ⟨M', h'⟩
    · rw [h', except_bind_error]
      exact Or.inl rfl
    · rw [h', except_bind_ok]
      exact Or.inr ⟨_, rfl⟩

theorem foldlM_enum_error {β : Type} (f : β → ℕ × ℕ → Except String β)
    (bad : ℕ → Prop)
    (h1 : ∀ acc k j, bad j → f acc (k, j) = Except.error "could not broadcast")
    (h2 : ∀ acc p, f acc p = Except.error "could not broadcast" ∨ ∃ b, f acc p = Except.ok b) :
    ∀ (tr : List ℕ) (k0 : ℕ) (acc : β), (∃ j ∈ tr, bad j) →
      (List.enumFrom k0 tr).foldlM f acc = Except.error "could not broadcast" := by
  intro tr
  induction tr with
  | nil => intro k0 acc h; simp at h
  | cons t ts ih =>
    intro k0 acc hex
    rw [List.enumFrom_cons, List.foldlM_cons]
    by_cases hbt : bad t
    · rw [h1 acc k0 t hbt, except_bind_error]
    · rcases h2 acc (k0, t) with h | ⟨b, h⟩
      · rw [h, except_bind_error]
      · rw [h, except_bind_ok]
        apply ih (k0 + 1) b
        rcases hex with ⟨j, hj, hbj⟩
        rcases List.mem_cons.1 hj with rfl | hj'
        · exact absurd hbj hbt
        · exact ⟨j, hj', hbj⟩

theorem ncols_block (dX : Mat) (n C : ℕ) (hn : 0 < n) (hd : ∀ r ∈ dX, r.length = C) :
    ncols (dX ++ zeros n C) = C := by
  cases dX with
  | nil =>
    obtain ⟨m, rfl⟩ : ∃ m, n = m + 1 := ⟨n - 1, by omega⟩
    simp [ncols, zeros, zerosRow, List.replicate_succ]
  | cons d dX' => exact hd d (List.mem_cons_self d dX')

/-- The effect of one exact slice assignment on a partially-filled block:
the filled prefix is kept, the source lands after it, and 1310 zero rows
are consumed. -/
theorem slice_block (dX src : Mat) (k0 C m : ℕ)
    (hdX : dX.length = k0 * 1310) (_hsrc : src.length = 1310) :
    (dX ++ zeros (1310 + m) C).take (k0 * 1310) ++ src
        ++ (dX ++ zeros (1310 + m) C).drop ((k0 + 1) * 1310)
      = dX ++ src ++ zeros m C := by
  have h1 : (dX ++ zeros (1310 + m) C).take (k0 * 1310) = dX :=
    List.take_left' hdX
  have h2 : (dX ++ zeros (1310 + m) C).drop ((k0 + 1) * 1310) = zeros m C := by
    have he : (k0 + 1) * 1310 = dX.length + 1310 := by rw [hdX]; ring
    rw [he, List.drop_append, zeros, List.replicate_add,
      List.drop_left' (by rw [List.length_replicate])]
    rfl
  rw [h1, h2]

theorem foldlM_exact (X : List Mat) (Y : Mat)
    (hY : Y.length = 1310) (hYr : ∀ r ∈ Y, r.length = 100) :
    ∀ (tr : List ℕ) (k0 : ℕ) (dX dY : Mat),
      dX.length = k0 * 1310 → (∀ r ∈ dX, r.length = 268) →
      dY.length = k0 * 1310 → (∀ r ∈ dY, r.length = 100) →
      (∀ j ∈ tr, (X.getD j []).length = 1310 ∧ ∀ r ∈ X.getD j [], r.length = 268) →
      (List.enumFrom k0 tr).foldlM (foldStep X Y)
          (dX ++ zeros (1310 * tr.length) 268, dY ++ zeros (1310 * tr.length) 100)
        = Except.ok (dX ++ (tr.map (fun j => X.getD j [])).flatten,
                     dY ++ (List.replicate tr.length Y).flatten) := by
  intro tr
  induction tr with
  | nil =>
    intro k0 dX dY _ _ _ _ _
    simp [zeros, List.enumFrom, List.foldlM_nil, pure, Except.pure]
  | cons t ts ih =>
    intro k0 dX dY hdX hdXr hdY hdYr htr
    have hXt := htr t (List.mem_cons_self t ts)
    have hlen : (1310 : ℕ) * (t :: ts).length = 1310 + 1310 * ts.length := by
      rw [List.length_cons]
      ring
    rw [hlen, List.enumFrom_cons, List.foldlM_cons]
    have hn : 0 < 1310 + 1310 * ts.length := by omega
    have hstep : foldStep X Y
        (dX ++ zeros (1310 + 1310 * ts.length) 268, dY ++ zeros (1310 + 1310 * ts.length) 100)
        (k0, t)
        = Except.ok (dX ++ X.getD t [] ++ zeros (1310 * ts.length) 268,
                     dY ++ Y ++ zeros (1310 * ts.length) 100) := by
      unfold foldStep
      have hsx : sliceAssign (dX ++ zeros (1310 + 1310 * ts.length) 268)
          (k0 * 1310) ((k0 + 1) * 1310) (X.getD t [])
          = Except.ok (dX ++ X.getD t [] ++ zeros (1310 * ts.length) 268) := by
        rw [sliceAssign_exact (by rw [hXt.1]; omega)
          (fun r hrm => by rw [ncols_block dX _ 268 hn hdXr]; exact hXt.2 r hrm)]
        rw [slice_block dX (X.getD t []) k0 268 (1310 * ts.length) hdX hXt.1]
      have hsy : sliceAssign (dY ++ zeros (1310 + 1310 * ts.length) 100)
          (k0 * 1310) ((k0 + 1) * 1310) Y
          = Except.ok (dY ++ Y ++ zeros (1310 * ts.length) 100) := by
        rw [sliceAssign_exact (by rw [hY]; omega)
          (fun r hrm => by rw [ncols_block dY _ 100 hn hdYr]; exact hYr r hrm)]
        rw [slice_block dY Y k0 100 (1310 * ts.length) hdY hY]
      rw [hsx, except_bind_ok, hsy, except_bind_ok]
      rfl
    rw [hstep, except_bind_ok]
    have hrecX : ∀ r ∈ dX ++ X.getD t [], r.length = 268 := by
      intro r hr
      rcases List.mem_append.1 hr with h | h
      · exact hdXr r h
      · exact hXt.2 r h
    have hrecY : ∀ r ∈ dY ++ Y, r.length = 100 := by
      intro r hr
      rcases List.mem_append.1 hr with h | h
      · exact hdYr r h
      · exact hYr r h
    have hi := ih (k0 + 1) (dX ++ X.getD t []) (dY ++ Y)
      (by rw [List.length_append, hdX, hXt.1]; ring)
      hrecX
      (by rw [List.length_append, hdY, hY]; ring)
      hrecY
      (fun j hj => htr j (List.mem_cons_of_mem t hj))
    rw [hi]
    simp [List.append_assoc, List.replicate_succ]

theorem trainIndex_length : ∀ (N i : ℕ), i < N → (trainIndex N i).length = N - 1 := by
  intro N
  induction N with
  | zero => intro i h; omega
  | succ n ih =>
    intro i hi
    rw [trainIndex, List.range_succ, List.filter_append]
    by_cases h : i = n
    · subst h
      have h1 : (List.range i).filter (fun j => decide (j ≠ i)) = List.range i := by
        apply List.filter_eq_self.2
        intro j hj
        simpa using Nat.ne_of_lt (List.mem_range.1 hj)
      have h2 : [i].filter (fun j => decide (j ≠ i)) = [] := by simp
      rw [h1, h2, List.append_nil, List.length_range]
      omega
    · have hin : i < n := by omega
      have h2 : [n].filter (fun j => decide (j ≠ i)) = [n] := by
        simp [Ne.symm h]
      rw [h2, List.length_append]
      have := ih i hin
      rw [trainIndex] at this
      rw [this]
      simp
      omega

theorem trainIndex_ne_nil {N i : ℕ} (hN : 2 ≤ N) : trainIndex N i ≠ [] := by
  intro h
  have hmem : (if i = 0 then 1 else 0) ∈ trainIndex N i := by
    rw [trainIndex, List.mem_filter]
    constructor
    · rw [List.mem_range]
      by_cases h0 : i = 0 <;> simp [h0] <;> omega
    · by_cases h0 : i = 0 <;> simp [h0]
      omega
  rw [h] at hmem
  exact List.not_mem_nil _ hmem

theorem buildFold_exact (X : List Mat) (Y : Mat) (i : ℕ)
    (hX : ∀ A ∈ X, A.length = 1310 ∧ ∀ r ∈ A, r.length = 268)
    (hY : Y.length = 1310) (hYr : ∀ r ∈ Y, r.length = 100) :
    buildFold X Y i = Except.ok
      (((trainIndex X.length i).map (fun j => X.getD j [])).flatten,
        (List.replicate (trainIndex X.length i).length Y).flatten,
        X.getD i []) := by
  unfold buildFold
  have hj : ∀ j ∈ trainIndex X.length i,
      (X.getD j []).length = 1310 ∧ ∀ r ∈ X.getD j [], r.length = 268 := by
    intro j hjm
    have hjN : j < X.length := by
      have := (List.mem_filter.1 (by rw [trainIndex] at hjm; exact hjm)).1
      exact List.mem_range.1 this
    have hmem : X.getD j [] ∈ X := by
      rw [List.getD_eq_getElem?_getD, List.getElem?_eq_getElem hjN]
      exact List.getElem_mem _
    exact hX _ hmem
  have h := foldlM_exact X Y hY hYr (trainIndex X.length i) 0 [] []
    (by simp) (by simp) (by simp) (by simp) hj
  simp only [List.nil_append] at h
  show (do
    let res ← (List.enumFrom 0 (trainIndex X.length i)).foldlM (foldStep X Y)
      (zeros (1310 * (trainIndex X.length i).length) 268,
        zeros (1310 * (trainIndex X.length i).length) 100)
    pure (res.1, res.2, X.getD i []) : Except String (Mat × Mat × Mat)) = _
  rw [h, except_bind_ok]
  rfl

/-! ## Claim C1: the fold's training set, target and prediction input -/

/-- Claim C1 counterexample: the spec's own concrete scenario — 3 subjects
of shape 5×2 and a 5×2 target — produces no predicted matrix: the loop
preallocates at the hardcoded shapes `(1310*(N-1), 268)` and slice
assignment of a 5×2 block raises a broadcast error, whatever the fitted
map would have been. -/
theorem decodeFold_toy_scenario :
    decodeFold (fun _ _ Xte => Xte) (List.replicate 3 (zeros 5 2)) (zeros 5 2) 0 =
      Except.error "could not broadcast" := rfl

/-- Claim C1 (amended): for subject matrices of the hardcoded shape
1310×268 and a 1310×100 target, the fold holding out subject `i` hands the
(black-box) regression exactly the vertical concatenation of the other
subjects' rows as design matrix and the target tiled `N-1` times as
y-targets, and applies the fitted map to subject `i`'s own matrix. -/
theorem decodeFold_ols (fit : Mat → Mat → Mat → Mat) (X : List Mat) (Y : Mat) (i : ℕ)
    (hi : i < X.length)
    (hX : ∀ A ∈ X, A.length = 1310 ∧ ∀ r ∈ A, r.length = 268)
    (hY : Y.length = 1310) (hYr : ∀ r ∈ Y, r.length = 100) :
    decodeFold fit X Y i
      = Except.ok (fit (stackTrain X i) (tileTarget Y (X.length - 1)) (X.getD i []))
    ∧ (trainIndex X.length i).length = X.length - 1 := by
  have hlen := trainIndex_length X.length i hi
  constructor
  · rw [decodeFold, buildFold_exact X Y i hX hY hYr, except_map_ok, stackTrain,
      tileTarget, hlen]
  · exact hlen

set_option maxRecDepth 20000 in
/-- Witness for C1: three all-zero subjects of shape 1310×268 and an
all-zero 1310×100 target, with the identity taken for the opaque fit. -/
theorem decodeFold_ols_witness :
    (0 < (List.replicate 3 (zeros 1310 268)).length
      ∧ (List.replicate 3 (zeros 1310 268)).length = 3
      ∧ (zeros 1310 100).length = 1310)
    ∧ decodeFold fit0 (List.replicate 3 (zeros 1310 268)) (zeros 1310 100) 0
        = Except.ok (fit0 (stackTrain (List.replicate 3 (zeros 1310 268)) 0)
            (tileTarget (zeros 1310 100) ((List.replicate 3 (zeros 1310 268)).length - 1))
            ((List.replicate 3 (zeros 1310 268)).getD 0 []))
    ∧ (trainIndex (List.replicate 3 (zeros 1310 268)).length 0).length
        = (List.replicate 3 (zeros 1310 268)).length - 1 := by
  refine ⟨⟨by simp, by simp, by simp [zeros]⟩, ?_⟩
  exact decodeFold_ols fit0 (List.replicate 3 (zeros 1310 268)) (zeros 1310 100) 0
    (by simp)
    (fun A hA => by
      rcases List.eq_of_mem_replicate hA with rfl
      exact ⟨by simp [zeros], fun r hr => by
        rcases List.eq_of_mem_replicate hr with rfl
        simp [zerosRow]⟩)
    (by simp [zeros])
    (fun r hr => by
      rcases List.eq_of_mem_replicate hr with rfl
      simp [zerosRow])

/-! ## Claim C6: shape mismatches and numpy broadcasting -/

set_option maxRecDepth 40000 in
/-- Claim C6 counterexample: two single-row subjects against a 1310-row
target is a shape mismatch (T = 1 ≠ 1310 target rows), yet the fold
assembles without error — numpy silently broadcasts the single row over
all 1310 slots — and training proceeds on the tiled data. -/
theorem decodeFold_broadcast_slips :
    nrows ([[(0 : ℚ)]] : Mat) ≠ nrows (List.replicate 1310 [(0 : ℚ)])
    ∧ (decodeFold fit0 [[[(0 : ℚ)]], [[(0 : ℚ)]]]
        (List.replicate 1310 [(0 : ℚ)]) 0).toOption.isSome = true := by
  constructor
  · decide
  · rfl

/-- Claim C6 (amended): a training subject whose row count differs from
the hardcoded 1310 *and* from 1 makes the fold assembly fail with a
broadcast error before any regression is fitted; a mismatching dimension
equal to 1, however, is silently broadcast (see the counterexample), and
the held-out subject's shape is never checked. -/
theorem decodeFold_mismatch (fit : Mat → Mat → Mat → Mat) (X : List Mat) (Y : Mat) (i : ℕ)
    (h : ∃ j ∈ trainIndex X.length i,
      (X.getD j []).length ≠ 1310 ∧ (X.getD j []).length ≠ 1) :
    decodeFold fit X Y i = Except.error "could not broadcast" := by
  have hfold : (List.enumFrom 0 (trainIndex X.length i)).foldlM (foldStep X Y)
      (zeros (1310 * (trainIndex X.length i).length) 268,
        zeros (1310 * (trainIndex X.length i).length) 100)
      = Except.error "could not broadcast" := by
    apply foldlM_enum_error (foldStep X Y)
      (fun j => (X.getD j []).length ≠ 1310 ∧ (X.getD j []).length ≠ 1)
    · intro acc k j hbad
      unfold foldStep
      rw [sliceAssign_bad_rows acc.1 (by have := hbad.1; omega) hbad.2, except_bind_error]
    · exact foldStep_cases X Y
    · exact h
  have hb : buildFold X Y i = Except.error "could not broadcast" := by
    show (do
      let res ← (List.enumFrom 0 (trainIndex X.length i)).foldlM (foldStep X Y)
        (zeros (1310 * (trainIndex X.length i).length) 268,
          zeros (1310 * (trainIndex X.length i).length) 100)
      pure (res.1, res.2, X.getD i []) : Except String (Mat × Mat × Mat)) = _
    rw [hfold, except_bind_error]
  rw [decodeFold, hb, except_map_error]

/-- Witness for C6: the second subject is 5×268 while the slots expect
1310 rows, so the fold holding out subject 0 errors before fitting. -/
theorem decodeFold_mismatch_witness :
    (∃ j ∈ trainIndex (List.replicate 2 (zeros 5 268)).length 0,
      ((List.replicate 2 (zeros 5 268)).getD j []).length ≠ 1310
      ∧ ((List.replicate 2 (zeros 5 268)).getD j []).length ≠ 1)
    ∧ decodeFold fit0 (List.replicate 2 (zeros 5 268)) (zeros 5 100) 0
        = Except.error "could not broadcast" :=
  ⟨⟨1, by decide, by decide, by decide⟩,
    decodeFold_mismatch fit0 _ _ 0 ⟨1, by decide, by decide, by decide⟩⟩

/-! ## Claim C5: misaligned resampler output stops the pipeline -/

/-- Claim C5: whenever the resampler's output row count differs from the
hardcoded 1310 scan count, every fold's target slice assignment fails with
a broadcast error (the resampler output always has at least 2 rows, so
the single-row broadcast loophole cannot occur), and the whole decoding
run returns that error before any regression is fitted. -/
theorem decode_length_mismatch (fit : Mat → Mat → Mat → Mat) (cos : Mat → Mat → Mat)
    (K : ℕ) (we : List WordRow) (hrf : List ℚ) (cb : Bool) (M : Mat)
    (X : List Mat) (Y : Mat)
    (hok : downsample_embeddings we hrf cb = Except.ok M)
    (hM : M.length ≠ 1310) (hYM : Y.length = M.length) (hN : 2 ≤ X.length) :
    decodeRun fit cos K X Y = Except.error "could not broadcast" := by
  have hge : 2 ≤ M.length := downsample_ok_length hok
  have hY1 : Y.length ≠ 1310 := by omega
  have hY2 : Y.length ≠ 1 := by omega
  have hstep : ∀ (acc : Mat × Mat) (p : ℕ × ℕ),
      foldStep X Y acc p = Except.error "could not broadcast" := by
    intro acc p
    unfold foldStep
    rcases sliceAssign_cases acc.1 (p.1 * 1310) ((p.1 + 1) * 1310) (X.getD p.2 [])
      with hs | ⟨M', hs⟩
    · rw [hs, except_bind_error]
    · rw [hs, except_bind_ok, sliceAssign_bad_rows acc.2 (by omega) hY2,
        except_bind_error]
  have hfold : ∀ i, decodeFold fit X Y i = Except.error "could not broadcast" := by
    intro i
    obtain ⟨t, ts, htr⟩ := List.exists_cons_of_ne_nil (trainIndex_ne_nil (i := i) hN)
    have hb : buildFold X Y i = Except.error "could not broadcast" := by
      show (do
        let res ← (List.enumFrom 0 (trainIndex X.length i)).foldlM (foldStep X Y)
          (zeros (1310 * (trainIndex X.length i).length) 268,
            zeros (1310 * (trainIndex X.length i).length) 100)
        pure (res.1, res.2, X.getD i []) : Except String (Mat × Mat × Mat)) = _
      rw [htr, List.enumFrom_cons, List.foldlM_cons, hstep, except_bind_error,
        except_bind_error]
    rw [decodeFold, hb, except_map_error]
  obtain ⟨n, hn⟩ : ∃ n, X.length = n + 1 := ⟨X.length - 1, by omega⟩
  rw [decodeRun, hn, List.range_succ_eq_map, List.mapM_cons]
  simp only [hfold, except_bind_error]

/-- Witness for C5: the 9-row resampler output of `c5we` (≠ 1310) makes
the two-subject decoding run fail before fitting. -/
theorem decode_length_mismatch_witness :
    (downsample_embeddings c5we [1] false = Except.ok (paddedOf c5we)
      ∧ (paddedOf c5we).length ≠ 1310
      ∧ (paddedOf c5we).length = (paddedOf c5we).length
      ∧ 2 ≤ ([[[(0 : ℚ)]], [[(0 : ℚ)]]] : List Mat).length)
    ∧ decodeRun fit0 cos0 10 [[[(0 : ℚ)]], [[(0 : ℚ)]]] (paddedOf c5we)
        = Except.error "could not broadcast" := by
  have hok : downsample_embeddings c5we [1] false = Except.ok (paddedOf c5we) := by
    rw [downsample_eq_of c5we [1] false (by decide) (by simp [c5we])]
    rfl
  have hM : (paddedOf c5we).length ≠ 1310 := by
    rw [paddedOf_length, bodyOf_length]
    have hm : npMin (onsetsOf c5we) = 0 := by decide
    have hx : npMax (onsetsOf c5we) = 2 := by decide
    rw [hm, hx, arangeLen]
    norm_num
    decide
  exact ⟨⟨hok, hM, rfl, by decide⟩,
    decode_length_mismatch fit0 cos0 10 c5we [1] false (paddedOf c5we) _ _
      hok hM rfl (by decide)⟩

/-! ## Convolution with the identity kernel, and transposition -/

theorem range_map_getD_gen {α : Type} (v : List α) (d : α) :
    (List.range v.length).map (fun j => v.getD j d) = v := by
  apply List.ext_getElem
  · simp
  · intro i h1 h2
    simp [List.getD_eq_getElem?_getD, List.getElem?_eq_getElem h2]

theorem npConvolve_one (x : List ℚ) : npConvolve x [1] = x := by
  rw [npConvolve]
  apply List.ext_getElem
  · simp
  · intro n h1 h2
    simp only [List.getElem_map, List.getElem_range]
    rw [List.range_succ, List.map_append, List.sum_append]
    have hlast : ([n].map (fun k => x.getD k 0 * [(1 : ℚ)].getD (n - k) 0)).sum = x[n] := by
      simp [List.getD_eq_getElem?_getD, List.getElem?_eq_getElem h2]
    have hzero : ((List.range n).map (fun k => x.getD k 0 * [(1 : ℚ)].getD (n - k) 0)).sum
        = 0 := by
      apply List.sum_eq_zero
      intro q hq
      obtain ⟨k, hk, rfl⟩ := List.mem_map.1 hq
      have hkn : k < n := List.mem_range.1 hk
      have hnone : [(1 : ℚ)].getD (n - k) 0 = 0 := by
        rw [List.getD_eq_getElem?_getD, List.getElem?_eq_none (by simp; omega)]
        rfl
      rw [hnone, mul_zero]
    rw [hzero, hlast, zero_add]

theorem transposeM_transposeM (B : Mat) (C : ℕ) (hC : 0 < C) (hn : ncols B = C)
    (hB : ∀ r ∈ B, r.length = C) : transposeM (transposeM B) = B := by
  have ht : transposeM B = (List.range C).map (fun j => B.map (fun r => r.getD j 0)) := by
    rw [transposeM, hn]
  have hnc : ncols (transposeM B) = B.length := by
    rw [ht]
    obtain ⟨m, rfl⟩ : ∃ m, C = m + 1 := ⟨C - 1, by omega⟩
    rw [List.range_succ_eq_map, List.map_cons]
    exact List.length_map _ _
  rw [transposeM, hnc]
  apply List.ext_getElem
  · simp
  · intro r h1 h2
    simp only [List.getElem_map, List.getElem_range]
    rw [ht, List.map_map]
    have h2' : r < B.length := by simpa using h2
    have hBr : B[r].length = C := hB _ (List.getElem_mem _)
    have hcong : (List.range C).map
        ((fun row => row.getD r 0) ∘ (fun j => B.map (fun r' => r'.getD j 0)))
        = (List.range C).map (fun j => B[r].getD j 0) := by
      apply List.map_congr_left
      intro j _
      show (B.map (fun row => row.getD j 0)).getD r 0 = B[r].getD j 0
      rw [List.getD_eq_getElem?_getD, List.getElem?_map, List.getElem?_eq_getElem h2']
      rfl
    rw [hcong, ← hBr, range_map_getD_gen]

theorem convCols_one (B : Mat) (C : ℕ) (hC : 0 < C) (hn : ncols B = C)
    (hB : ∀ r ∈ B, r.length = C) : convCols B [1] = B := by
  rw [convCols]
  have hmap : (transposeM B).map (fun x => (npConvolve x [1]).take x.length)
      = transposeM B := by
    have hx : ∀ x ∈ transposeM B, (npConvolve x [1]).take x.length = x := by
      intro x _
      rw [npConvolve_one, List.take_length]
    calc (transposeM B).map (fun x => (npConvolve x [1]).take x.length)
        = (transposeM B).map id := List.map_congr_left hx
      _ = transposeM B := List.map_id _
  rw [hmap, transposeM_transposeM B C hC hn hB]

theorem interpPairs_length (F : ℕ) :
    ∀ (ps : List WordRow) (t : ℚ), ps ≠ [] → (∀ p ∈ ps, p.2.length = F) →
      (interpPairs ps t).length = F := by
  intro ps
  induction ps with
  | nil => intro t h _; exact absurd rfl h
  | cons p qs ih =>
    intro t _ hF
    cases qs with
    | nil => simpa [interpPairs] using hF p (by simp)
    | cons q rest =>
      rw [interpPairs]
      split
      · rw [lerpRow, List.length_zipWith, hF p (by simp), hF q (by simp)]
        simp
      · exact ih t (by simp) (fun r hr => hF r (List.mem_cons_of_mem p hr))

theorem paddedOf_rows (we : List WordRow) (hF : ∀ p ∈ we, p.2.length = 100)
    (hne : we ≠ []) : ∀ r ∈ paddedOf we, r.length = 100 := by
  intro r hr
  rw [paddedOf] at hr
  rcases List.mem_append.1 hr with hr' | hr'
  · rcases List.mem_append.1 hr' with hz | hb
    · rw [List.eq_of_mem_replicate hz]
      simp [zerosRow, n_feature]
    · rw [bodyOf] at hb
      obtain ⟨t, _, rfl⟩ := List.mem_map.1 hb
      apply interpPairs_length 100 _ t
      · intro hnil
        have := congrArg List.length hnil
        rw [List.length_insertionSort] at this
        exact hne (List.length_eq_zero.1 this)
      · intro pk hpk
        exact hF pk ((List.mem_insertionSort _).1 hpk)
  · rw [List.eq_of_mem_replicate hr']
    simp [zerosRow]

/-! ## Claim C4: the scrambling baseline -/

theorem interpPairs_two (a b : ℚ) (u v : List ℚ) (t : ℚ) (hab : t ≤ b) :
    interpPairs [(a, u), (b, v)] t = lerpRow (a, u) (b, v) t := by
  rw [interpPairs, if_pos hab]

theorem lerpRow_replicate (a b x y t : ℚ) (n : ℕ) :
    lerpRow (a, List.replicate n x) (b, List.replicate n y) t
      = List.replicate n (x + (t - a) * (y - x) / (b - a)) := by
  rw [lerpRow]
  exact List.zipWith_replicate'

theorem arange_zero_two : arange (0 : ℚ) 2 = [0, 1] := by
  have h2 : arangeLen (0 : ℚ) 2 = 2 := by
    rw [arangeLen]
    norm_num
    decide
  rw [arange, h2]
  norm_num [List.range_succ]

/-- Evaluation of the resampler (identity kernel) on a two-word table
with onsets 0 and 2 and constant 100-wide vectors `x` and `y`. -/
theorem downsample_two_const (x y : ℚ) :
    downsample_embeddings
        [((0 : ℚ), List.replicate 100 x), ((2 : ℚ), List.replicate 100 y)] [1] true
      = Except.ok (zeros 5 100
          ++ [List.replicate 100 x, List.replicate 100 (x + (y - x) / 2)]
          ++ zeros 2 100) := by
  set we : List WordRow :=
    [((0 : ℚ), List.replicate 100 x), ((2 : ℚ), List.replicate 100 y)] with hwe
  have hF : ∀ p ∈ we, p.2.length = 100 := by
    intro p hp
    rcases List.mem_cons.1 hp with rfl | hp'
    · simp
    · rcases List.mem_cons.1 hp' with rfl | hp''
      · simp
      · simp at hp''
  have hsorted : we.insertionSort onsetLE = we := by
    rw [hwe]
    simp only [List.insertionSort, List.orderedInsert]
    rw [if_pos (show onsetLE ((0 : ℚ), List.replicate 100 x) ((2 : ℚ), List.replicate 100 y)
      from by rw [onsetLE]; norm_num)]
  have hbody : bodyOf we =
      [List.replicate 100 x, List.replicate 100 (x + (y - x) / 2)] := by
    rw [bodyOf]
    have hm : npMin (onsetsOf we) = 0 := by
      rw [hwe]
      rfl
    have hx : npMax (onsetsOf we) = 2 := by
      rw [hwe]
      rfl
    rw [hm, hx, arange_zero_two, hsorted, List.map_cons, List.map_cons, List.map_nil, hwe]
    rw [interpPairs_two _ _ _ _ _ (by norm_num), interpPairs_two _ _ _ _ _ (by norm_num),
      lerpRow_replicate, lerpRow_replicate]
    have e1 : x + ((0 : ℚ) - 0) * (y - x) / (2 - 0) = x := by ring
    have e2 : x + ((1 : ℚ) - 0) * (y - x) / (2 - 0) = x + (y - x) / 2 := by ring
    rw [e1, e2]
  rw [downsample_eq_of we [1] true (by simp [hwe]) (by rw [hwe]; rfl), if_pos rfl]
  congr 1
  rw [convCols_one (paddedOf we) 100 (by norm_num) (ncols_paddedOf we)
    (paddedOf_rows we hF (by simp [hwe]))]
  rw [paddedOf, hbody]
  rfl

/-- Claim C4 counterexample: scrambling happens at the word level, before
resampling.  Swapping the two word vectors of `c4we` changes the
interpolated row values (a constant-4 row appears where the original had
none), so the matrix handed to the decoder is *not* any row permutation of
the original target — the marginal distribution of target rows is not
preserved. -/
theorem scramble_not_row_perm :
    downsample_embeddings (scrambleWords [1, 0] c4we) [1] true = Except.ok c4scr
    ∧ downsample_embeddings c4we [1] true = Except.ok c4orig
    ∧ ¬ List.Perm c4scr c4orig := by
  have hs : scrambleWords [1, 0] c4we
      = [((0 : ℚ), List.replicate 100 (4 : ℚ)), ((2 : ℚ), List.replicate 100 0)] := by
    decide
  refine ⟨?_, ?_, by decide⟩
  · rw [hs, downsample_two_const 4 0]
    have hv : (4 : ℚ) + (0 - 4) / 2 = 2 := by norm_num
    rw [hv]
    rfl
  · have hc : c4we = [((0 : ℚ), List.replicate 100 (0 : ℚ)), ((2 : ℚ), List.replicate 100 4)] :=
      rfl
    rw [hc, downsample_two_const 0 4]
    have hv : (0 : ℚ) + (4 - 0) / 2 = 2 := by norm_num
    rw [hv]
    rfl

/-- Claim C4 (amended): each baseline trial permutes the rows of the
*word-level* embedding block while keeping the onset column fixed — so the
multiset of word vectors (not of decoder-target rows) is preserved — and
then reruns resampling plus the full leave-one-subject-out decode on the
resampled scrambled target. -/
theorem scramble_word_level (perm : List ℕ) (we : List WordRow)
    (hp : List.Perm perm (List.range we.length)) :
    (scrambleWords perm we).map (fun p => p.1) = we.map (fun p => p.1)
    ∧ List.Perm ((scrambleWords perm we).map (fun p => p.2)) (we.map (fun p => p.2))
    ∧ ∀ (fit : Mat → Mat → Mat → Mat) (cos : Mat → Mat → Mat) (K : ℕ)
        (X : List Mat) (hrf : List ℚ) (zsc : Mat → Mat),
        scramTrial fit cos K X we hrf zsc perm
          = (downsample_embeddings (scrambleWords perm we) hrf true).bind
              (fun emb => decodeRun fit cos K X (zsc emb)) := by
  have hplen : perm.length = we.length := by rw [hp.length_eq, List.length_range]
  refine ⟨?_, ?_, fun _ _ _ _ _ _ => rfl⟩
  · apply List.ext_getElem
    · simp [scrambleWords]
    · intro k h1 h2
      have hk : k < we.length := by simpa using h2
      simp only [scrambleWords, List.getElem_map, List.getElem_range]
      rw [List.getD_eq_getElem?_getD we k, List.getElem?_eq_getElem hk]
      rfl
  · have hstep1 : (scrambleWords perm we).map (fun p => p.2)
        = perm.map (fun j => (we.getD j (0, [])).2) := by
      apply List.ext_getElem
      · simp [scrambleWords, hplen]
      · intro k h1 h2
        have hk : k < perm.length := by simpa using h2
        simp only [scrambleWords, List.getElem_map, List.getElem_range]
        rw [List.getD_eq_getElem?_getD perm k, List.getElem?_eq_getElem hk]
        rfl
    have hstep3 : (List.range we.length).map (fun j => (we.getD j (0, [])).2)
        = we.map (fun p => p.2) := by
      conv_rhs => rw [← range_map_getD_gen we ((0 : ℚ), ([] : List ℚ))]
      rw [List.map_map]
      exact List.map_congr_left (fun a _ => rfl)
    rw [hstep1, ← hstep3]
    exact hp.map _

/-- Witness for C4 with the swap permutation on the two-word table. -/
theorem scramble_word_level_witness :
    List.Perm [1, 0] (List.range c4we.length)
    ∧ ((scrambleWords [1, 0] c4we).map (fun p => p.1) = c4we.map (fun p => p.1)
      ∧ List.Perm ((scrambleWords [1, 0] c4we).map (fun p => p.2))
          (c4we.map (fun p => p.2))
      ∧ ∀ (fit : Mat → Mat → Mat → Mat) (cos : Mat → Mat → Mat) (K : ℕ)
          (X : List Mat) (hrf : List ℚ) (zsc : Mat → Mat),
          scramTrial fit cos K X c4we hrf zsc [1, 0]
            = (downsample_embeddings (scrambleWords [1, 0] c4we) hrf true).bind
                (fun emb => decodeRun fit cos K X (zsc emb))) :=
  ⟨by decide, scramble_word_level [1, 0] c4we (by decide)⟩

/-- Claim C9: the decoding run is a pure function of its declared inputs.
Run against any two states of the global RNG it returns identical per-fold
hit counts (hence bit-identical accuracies `100*hit/1310`), and it leaves
the RNG state untouched — the only random primitive,
`np.random.permutation`, is never invoked with scrambling disabled. -/
theorem decode_rng_independent (fit : Mat → Mat → Mat → Mat) (cos : Mat → Mat → Mat)
    (K : ℕ) (X : List Mat) (Y : Mat) (s₁ s₂ : RngState) :
    ((decodeRunM fit cos K X Y).run s₁).1 = ((decodeRunM fit cos K X Y).run s₂).1
    ∧ ((decodeRunM fit cos K X Y).run s₁).2 = s₁ :=
  ⟨rfl, rfl⟩
